import Mathlib

/-!  Verification of the Monte-Carlo risk-simulation engine (worker code in
`src/App.tsx`).  JavaScript numbers are modelled as exact rationals (`ℚ`)
except where `Math.sqrt` forces real values (`ℝ`); 32-bit integer state is
modelled as the unsigned bit pattern, a natural number below `2 ^ 32`, with
wrapping arithmetic written as `% 2 ^ 32`. -/

namespace RiskSim

/-- `2 ^ 32`, the modulus of all wrapping 32-bit arithmetic in the worker. -/
def M32 : ℕ := 4294967296

/-- One state update of the mulberry32 generator:
`seed = (seed + 0x6D2B79F5) | 0` from `makeMulberry32` in the source,
acting on the unsigned bit pattern. -/
def m32next (s : ℕ) : ℕ := (s + 0x6D2B79F5) % M32

/-- The output scrambling of mulberry32 applied to the (already advanced)
state `s`:
`let t = Math.imul(seed ^ (seed >>> 15), 1 | seed);`
`t = (t + Math.imul(t ^ (t >>> 7), 61 | t)) ^ t;`
`return ((t ^ (t >>> 14)) >>> 0)` — the integer numerator of the draw.
Every 32-bit intermediate is written with its `% 2 ^ 32` pattern
reduction (for the xor steps this is a no-op, as xor of two values below
`2 ^ 32` stays below `2 ^ 32`). -/
def m32out (s : ℕ) : ℕ :=
  let t1 := ((s ^^^ (s >>> 15)) * (1 ||| s)) % M32
  let t2 := (((t1 + ((t1 ^^^ (t1 >>> 7)) * (61 ||| t1)) % M32) % M32) ^^^ t1) % M32
  (t2 ^^^ (t2 >>> 14)) % M32

/-- The value in `[0,1)` returned by one `rng()` call whose advanced state
is `s` (`... / 4294967296` in the source). -/
def m32val (s : ℕ) : ℚ := (m32out s : ℚ) / (M32 : ℚ)

/-- One full `rng()` call from state `s`: the returned draw together with
the updated state. -/
def rngStep (s : ℕ) : ℚ × ℕ := (m32val (m32next s), m32next s)

/-- The initial mulberry32 state for an integer seed: `seed |= 0` takes the
32-bit pattern of the seed. -/
def seedState (seed : ℤ) : ℕ := (seed % (M32 : ℤ)).toNat

/-- The sequence of internal states of `makeMulberry32 seed`:
`stateSeq seed n` is the state after `n` calls of `rng`. -/
def stateSeq (seed : ℤ) : ℕ → ℕ
  | 0 => seedState seed
  | n + 1 => m32next (stateSeq seed n)

/-- The sequence of draws produced by `makeMulberry32 seed`:
`drawSeq seed n` is the value returned by the `(n+1)`-st call of `rng`. -/
def drawSeq (seed : ℤ) (n : ℕ) : ℚ := m32val (stateSeq seed (n + 1))

/-- Modelled from the spec (§4.1 of the design document), for comparison
with the source PRNG: `s = (s + 0x6D2B79F5) mod 2^32`;
`t = (s XOR (s >> 15)) * (s OR 1) mod 2^32`;
`t = (t + ((t XOR (t >> 7)) * (t OR 61)) mod 2^32) XOR t mod 2^32`;
draw `= ((t XOR (t >> 14)) mod 2^32) / 2^32`. -/
def specDraw (s : ℕ) : ℚ :=
  let s' := (s + 0x6D2B79F5) % 2 ^ 32
  let t := ((s' ^^^ (s' >>> 15)) * (s' ||| 1)) % 2 ^ 32
  let t' := ((t + ((t ^^^ (t >>> 7)) * (t ||| 61)) % 2 ^ 32) % 2 ^ 32 ^^^ t) % 2 ^ 32
  (((t' ^^^ (t' >>> 14)) % 2 ^ 32 : ℕ) : ℚ) / 2 ^ 32

/-- The draw sequence prescribed by the spec recurrence, starting from the
32-bit pattern of the seed. -/
def specSeq (seed : ℤ) : ℕ → ℚ :=
  fun n => specDraw (Nat.iterate (fun s => (s + 0x6D2B79F5) % 2 ^ 32) n (seedState seed))

/-- Triangular sampler from the source (`sampleTriangular`), with the draw
`u` it would consume passed explicitly:
`if (!(a < b) || !(a <= m && m <= b)) return 0;`
`const k = (m - a) / Math.max(1e-12, b - a);`
`if (u <= k) return a + Math.sqrt(u * (b - a) * (m - a));`
`return b - Math.sqrt((1 - u) * (b - a) * (b - m));` -/
noncomputable def sampleTriangular (a m b u : ℚ) : ℝ :=
  if ¬(a < b) ∨ ¬(a ≤ m ∧ m ≤ b) then 0
  else
    let k : ℚ := (m - a) / max (1 / 10 ^ 12) (b - a)
    if u ≤ k then (a : ℝ) + Real.sqrt ((u : ℝ) * ((b : ℝ) - a) * ((m : ℝ) - a))
    else (b : ℝ) - Real.sqrt ((1 - (u : ℝ)) * ((b : ℝ) - a) * ((b : ℝ) - m))

/-- Modelled from the spec (§4.2), for comparison with the source sampler:
`k = (m−a)/(b−a)`; if `u ≤ k` return `a + sqrt(u·(b−a)·(m−a))`, else
`b − sqrt((1−u)·(b−a)·(b−m))`; if the precondition fails return `0`. -/
noncomputable def triSpec (a m b u : ℚ) : ℝ :=
  if ¬(a < b) ∨ ¬(a ≤ m ∧ m ≤ b) then 0
  else
    let k : ℚ := (m - a) / (b - a)
    if u ≤ k then (a : ℝ) + Real.sqrt ((u : ℝ) * ((b : ℝ) - a) * ((m : ℝ) - a))
    else (b : ℝ) - Real.sqrt ((1 - (u : ℝ)) * ((b : ℝ) - a) * ((b : ℝ) - m))

/-- Percentile with linear interpolation, from the source (`percentile`),
generic over the number field so it can be evaluated on `ℚ` and used on
`ℝ` in the simulation. -/
def percentile {α : Type} [LinearOrderedField α] [FloorRing α]
    (arr : List α) (p : α) : α :=
  if arr.isEmpty then 0
  else
    let a := arr.insertionSort (· ≤ ·)
    let idx : α := ((arr.length - 1 : ℕ) : α) * p
    let lo := ⌊idx⌋
    let hi := ⌈idx⌉
    if lo = hi then a.getD lo.toNat 0
    else
      let w : α := idx - (lo : α)
      a.getD lo.toNat 0 * (1 - w) + a.getD hi.toNat 0 * w

/-- Modelled from the spec (§4.5), for comparison with the source
percentile: sort ascending (here by mergesort rather than the insertion
sort used for the source translation), `idx = (n−1)·p`, `lo = ⌊idx⌋`,
`hi = ⌈idx⌉`; if equal return `arr[lo]`, else interpolate
`arr[lo]·(1−w) + arr[hi]·w` with `w = idx − lo`; empty array gives `0`. -/
def percentileSpec {α : Type} [LinearOrderedField α] [FloorRing α]
    (arr : List α) (p : α) : α :=
  if arr.isEmpty then 0
  else
    let a := arr.mergeSort (fun x y => decide (x ≤ y))
    let idx : α := ((arr.length - 1 : ℕ) : α) * p
    let lo := ⌊idx⌋
    let hi := ⌈idx⌉
    if lo = hi then a.getD lo.toNat 0
    else
      let w : α := idx - (lo : α)
      a.getD lo.toNat 0 * (1 - w) + a.getD hi.toNat 0 * w

/-- A raw risk row as received by the worker (`data.risks[i]`); the numeric
fields of the source `Risk` type (free text dropped, `Number(...)` coercion
of already-numeric fields is the identity in this model). -/
structure RiskIn where
  likelihood : ℚ
  rmin : ℚ
  rmode : ℚ
  rmax : ℚ
  kill : ℚ

/-- A normalized active risk, one entry of the source array `R`. -/
structure NRisk where
  p : ℚ
  a : ℚ
  m : ℚ
  b : ℚ
  kill : Bool

/-- Normalization of one risk row (body of the `for` loop over
`data.risks`): `p = Math.max(0, Math.min(1, likelihood / 100))`,
`kill = Number(r.kill) ? 1 : 0`, and the row is kept only when
`p > 0 && (kill === 1 || (a !== 0 || m !== 0 || b !== 0))`. -/
def normRisk (r : RiskIn) : Option NRisk :=
  let p := max 0 (min 1 (r.likelihood / 100))
  let kill := r.kill ≠ 0
  if p > 0 ∧ (kill ∨ (r.rmin ≠ 0 ∨ r.rmode ≠ 0 ∨ r.rmax ≠ 0)) then
    some ⟨p, r.rmin, r.rmode, r.rmax, kill⟩
  else none

/-- The active-risk array `R` built by the worker from `data.risks`. -/
def normRisks (rs : List RiskIn) : List NRisk := rs.filterMap normRisk

/-- The trial count: `N = Math.max(1, Math.min(20000, Math.floor(Number(data.iterations) || 0)))`. -/
def clampIters (iters : ℚ) : ℕ := (max 1 (min 20000 ⌊iters⌋)).toNat

/-- State threaded through one trial's inner loop over the risks. -/
structure TrialState where
  g : ℕ
  anyKill : Bool
  totalDelay : ℝ

/-- Processing of one risk inside a trial (body of the `for (j ...)` loop):
draw `u`; if `u < r.p` the risk occurs: a kill risk sets `anyKill` and, when
`r.b > r.a && r.m >= r.a && r.m <= r.b`, a triangular sample (consuming one
more draw) is added to `totalDelay`. -/
noncomputable def riskStep (st : TrialState) (r : NRisk) : TrialState :=
  let u := (rngStep st.g).1
  let g1 := (rngStep st.g).2
  if u < r.p then
    let anyKill := st.anyKill || r.kill
    if r.b > r.a ∧ r.m ≥ r.a ∧ r.m ≤ r.b then
      let u2 := (rngStep g1).1
      let g2 := (rngStep g1).2
      { g := g2, anyKill := anyKill,
        totalDelay := st.totalDelay + sampleTriangular r.a r.m r.b u2 }
    else
      { g := g1, anyKill := anyKill, totalDelay := st.totalDelay }
  else
    { g := g1, anyKill := st.anyKill, totalDelay := st.totalDelay }

/-- One complete trial over the active risks, starting from rng state `g`. -/
noncomputable def runTrial (R : List NRisk) (g : ℕ) : TrialState :=
  R.foldl riskStep { g := g, anyKill := false, totalDelay := 0 }

/-- The same risk with its kill flag cleared; used to state that kill
flags influence only the `anyKill` overlay, never the delay accumulation
or the rng stream. -/
def stripKill (r : NRisk) : NRisk := { r with kill := false }

/-- The summary record posted in the `done` message (source type `Results`
plus the worker's `results` object). -/
structure Results where
  successPct : ℚ
  killedPct : ℚ
  expectedDelayNotKilled : ℝ
  p50Late : ℝ
  p85Late : ℝ
  p90Late : ℝ
  runs : ℕ
  lateCount : ℕ
  notKilledCount : ℕ

/-- A message posted by the worker: a progress notification or the final
result. -/
inductive Msg where
  | progress (done total : ℕ)
  | result (res : Results)

/-- Accumulator state of the outer trial loop. -/
structure SimState where
  g : ℕ
  successCount : ℕ
  killedCount : ℕ
  notKilledCount : ℕ
  sumDelayNotKilled : ℝ
  lateDelays : List ℝ
  msgs : List Msg

/-- One iteration `i` of the outer loop (`for (let i = 0; i < N; i++)`):
run a trial, update the counters, and post a progress message when
`i % 1000 === 0`. -/
noncomputable def simStep (slack : ℚ) (N : ℕ) (R : List NRisk)
    (st : SimState) (i : ℕ) : SimState :=
  let t := runTrial R st.g
  let success := t.anyKill = false ∧ t.totalDelay ≤ (slack : ℝ)
  { g := t.g
    successCount := if success then st.successCount + 1 else st.successCount
    killedCount := if t.anyKill then st.killedCount + 1 else st.killedCount
    notKilledCount := if t.anyKill then st.notKilledCount else st.notKilledCount + 1
    sumDelayNotKilled :=
      if t.anyKill then st.sumDelayNotKilled else st.sumDelayNotKilled + t.totalDelay
    lateDelays :=
      if t.anyKill then st.lateDelays
      else if t.totalDelay > (slack : ℝ) then st.lateDelays ++ [t.totalDelay]
      else st.lateDelays
    msgs := if i % 1000 = 0 then st.msgs ++ [Msg.progress i N] else st.msgs }

/-- The outer trial loop: `N` trials from initial rng state `g0`. -/
noncomputable def runSim (slack : ℚ) (N : ℕ) (R : List NRisk) (g0 : ℕ) : SimState :=
  (List.range N).foldl (simStep slack N R)
    { g := g0, successCount := 0, killedCount := 0, notKilledCount := 0,
      sumDelayNotKilled := 0, lateDelays := [], msgs := [] }

/-- Assembly of the `results` object posted in the `done` message. -/
noncomputable def buildResults (N : ℕ) (st : SimState) : Results :=
  { successPct := (st.successCount : ℚ) / N
    killedPct := (st.killedCount : ℚ) / N
    expectedDelayNotKilled :=
      if st.notKilledCount ≠ 0 then st.sumDelayNotKilled / st.notKilledCount else 0
    p50Late := percentile st.lateDelays (1 / 2)
    p85Late := percentile st.lateDelays (85 / 100)
    p90Late := percentile st.lateDelays (9 / 10)
    runs := N
    lateCount := st.lateDelays.length
    notKilledCount := st.notKilledCount }

/-- The payload of a `run` message, together with the wall clock at call
time (`Date.now()`), which the worker reads only for its seed fallback. -/
structure Config where
  seed : Option ℤ
  clock : ℕ
  risks : List RiskIn
  iterations : ℚ
  slack : ℚ

/-- Seed resolution: `Number(data.seed) || (Date.now() % 2147483647)`.
A missing seed gives `NaN`, and both `NaN` and `0` are falsy, so the
wall-clock fallback is used exactly when the seed is absent or zero. -/
def resolveSeed (seed : Option ℤ) (clock : ℕ) : ℤ :=
  match seed with
  | none => (clock % 2147483647 : ℕ)
  | some s => if s = 0 then (clock % 2147483647 : ℕ) else s

/-- The final accumulator state of the `onmessage` handler for a `run`
request. -/
noncomputable def workerState (cfg : Config) : SimState :=
  runSim (max 0 cfg.slack) (clampIters cfg.iterations) (normRisks cfg.risks)
    (seedState (resolveSeed cfg.seed cfg.clock))

/-- The result record a `run` request posts in its `done` message. -/
noncomputable def simResults (cfg : Config) : Results :=
  buildResults (clampIters cfg.iterations) (workerState cfg)

/-- The full ordered list of messages posted for one `run` request. -/
noncomputable def simMessages (cfg : Config) : List Msg :=
  (workerState cfg).msgs ++ [Msg.result (simResults cfg)]

namespace BudgetEngine

/-- Modelled from the spec: the budget/cost-tracking engine variant (spec
§9 "Duplicated engine variants") is not present under `src/`; its
ActiveRisk shape follows spec §3: probability, optional delay triple,
optional cost triple, kill flag. -/
structure BRisk where
  p : ℚ
  delay : Option (ℚ × ℚ × ℚ)
  cost : Option (ℚ × ℚ × ℚ)
  kill : Bool

/-- Modelled from the spec: a TrialOutcome (spec §3) extended with the rng
state threaded through the trial. -/
structure BTrial where
  killed : Bool
  totalDelay : ℝ
  totalCost : ℝ
  g : ℕ

/-- A triple is a valid sampling range when `b > a` and `a ≤ m ≤ b`
(spec §4.4 step 2). -/
def validTriple (t : ℚ × ℚ × ℚ) : Prop :=
  t.2.2 > t.1 ∧ t.1 ≤ t.2.1 ∧ t.2.1 ≤ t.2.2

instance (t : ℚ × ℚ × ℚ) : Decidable (validTriple t) := by
  unfold validTriple; infer_instance

/-- Modelled from the spec: step 2 of a trial (spec §4.4) for one active
risk: draw one uniform value; if it is below the probability the risk
occurs — a kill risk marks the trial killed, a valid delay triple adds one
triangular draw to `totalDelay`, a valid cost triple adds one triangular
draw to `totalCost`, and a constant nonzero cost triple (`a = m = b ≠ 0`)
adds the constant directly. -/
noncomputable def bRiskStep (st : BTrial) (r : BRisk) : BTrial :=
  let u := (rngStep st.g).1
  let g1 := (rngStep st.g).2
  if u < r.p then
    let killed := st.killed || r.kill
    let dg : ℝ × ℕ :=
      match r.delay with
      | some t =>
          if validTriple t then (triSpec t.1 t.2.1 t.2.2 (rngStep g1).1, (rngStep g1).2)
          else (0, g1)
      | none => (0, g1)
    let cg : ℝ × ℕ :=
      match r.cost with
      | some t =>
          if validTriple t then (triSpec t.1 t.2.1 t.2.2 (rngStep dg.2).1, (rngStep dg.2).2)
          else if t.1 = t.2.1 ∧ t.2.1 = t.2.2 ∧ t.1 ≠ 0 then ((t.1 : ℝ), dg.2)
          else (0, dg.2)
      | none => (0, dg.2)
    { killed := killed, totalDelay := st.totalDelay + dg.1,
      totalCost := st.totalCost + cg.1, g := cg.2 }
  else
    { st with g := g1 }

/-- Modelled from the spec: one full trial (spec §4.4 steps 1–2) over the
active risks in list order, from rng state `g`. -/
noncomputable def bRunTrial (R : List BRisk) (g : ℕ) : BTrial :=
  R.foldl bRiskStep { killed := false, totalDelay := 0, totalCost := 0, g := g }

/-- Modelled from the spec: the accumulated counters, sums and retained
arrays of the budget-tracking runner (spec §4.4 step 4). -/
structure BCounters where
  g : ℕ
  successCount : ℕ
  killedCount : ℕ
  notKilledCount : ℕ
  budgetExceededCount : ℕ
  sumDelayNotKilled : ℝ
  sumCostNotKilled : ℝ
  lateDelays : List ℝ
  overruns : List ℝ

/-- Modelled from the spec: steps 3–4 of a trial (spec §4.4): classify
(`overBudget = totalCost > budgetSlack`,
`success = !killed AND totalDelay ≤ delaySlack AND !overBudget`) and update
the counters — `budgetExceededCount` counts whenever `overBudget`,
regardless of `killed`; killed trials stop contributing to sums/arrays. -/
noncomputable def bUpdate (ds bs : ℚ) (st : BCounters) (t : BTrial) : BCounters :=
  let overBudget := t.totalCost > (bs : ℝ)
  let success := t.killed = false ∧ t.totalDelay ≤ (ds : ℝ) ∧ ¬overBudget
  { g := t.g
    successCount := if success then st.successCount + 1 else st.successCount
    killedCount := if t.killed then st.killedCount + 1 else st.killedCount
    notKilledCount := if t.killed then st.notKilledCount else st.notKilledCount + 1
    budgetExceededCount :=
      if overBudget then st.budgetExceededCount + 1 else st.budgetExceededCount
    sumDelayNotKilled :=
      if t.killed then st.sumDelayNotKilled else st.sumDelayNotKilled + t.totalDelay
    sumCostNotKilled :=
      if t.killed then st.sumCostNotKilled else st.sumCostNotKilled + t.totalCost
    lateDelays :=
      if t.killed = false ∧ t.totalDelay > (ds : ℝ) then st.lateDelays ++ [t.totalDelay]
      else st.lateDelays
    overruns :=
      if t.killed = false ∧ overBudget then st.overruns ++ [t.totalCost - (bs : ℝ)]
      else st.overruns }

/-- Modelled from the spec: the runner loop — `N` independent trials, each
classified and folded into the counters (spec §4.4). -/
noncomputable def bRunSim (ds bs : ℚ) (N : ℕ) (R : List BRisk) (g0 : ℕ) : BCounters :=
  (List.range N).foldl
    (fun st _ => bUpdate ds bs st (bRunTrial R st.g))
    { g := g0, successCount := 0, killedCount := 0, notKilledCount := 0,
      budgetExceededCount := 0, sumDelayNotKilled := 0, sumCostNotKilled := 0,
      lateDelays := [], overruns := [] }

/-- Modelled from the spec: the SimulationResult of the budget-tracking
variant (spec §3): counts, rates, conditional expectations and the
p50/p85/p90 percentiles of the late-delay and cost-overrun subsets (the
two histograms of spec §3 are omitted here as no claim refers to them). -/
structure BResults where
  runs : ℕ
  killedCount : ℕ
  notKilledCount : ℕ
  lateCount : ℕ
  budgetExceededCount : ℕ
  successPct : ℚ
  killedPct : ℚ
  budgetExceededPct : ℚ
  expectedDelayNotKilled : ℝ
  expectedCostNotKilled : ℝ
  p50Late : ℝ
  p85Late : ℝ
  p90Late : ℝ
  p50Cost : ℝ
  p85Cost : ℝ
  p90Cost : ℝ

/-- Modelled from the spec: assembly of the SimulationResult from the
final counters (spec §3, §4.5). -/
noncomputable def bBuildResults (N : ℕ) (st : BCounters) : BResults :=
  { runs := N
    killedCount := st.killedCount
    notKilledCount := st.notKilledCount
    lateCount := st.lateDelays.length
    budgetExceededCount := st.budgetExceededCount
    successPct := (st.successCount : ℚ) / N
    killedPct := (st.killedCount : ℚ) / N
    budgetExceededPct := (st.budgetExceededCount : ℚ) / N
    expectedDelayNotKilled :=
      if st.notKilledCount ≠ 0 then st.sumDelayNotKilled / st.notKilledCount else 0
    expectedCostNotKilled :=
      if st.notKilledCount ≠ 0 then st.sumCostNotKilled / st.notKilledCount else 0
    p50Late := percentileSpec st.lateDelays (1 / 2)
    p85Late := percentileSpec st.lateDelays (85 / 100)
    p90Late := percentileSpec st.lateDelays (9 / 10)
    p50Cost := percentileSpec st.overruns (1 / 2)
    p85Cost := percentileSpec st.overruns (85 / 100)
    p90Cost := percentileSpec st.overruns (9 / 10) }

/-- Modelled from the spec: the configuration of a budget-variant run
(spec §3, §6): iterations clamped to `[1, 50000]`, risk list truncated to
50 entries, nonnegative slacks. -/
structure BConfig where
  risks : List BRisk
  iterations : ℚ
  delaySlack : ℚ
  budgetSlack : ℚ
  seed : ℤ

/-- Modelled from the spec: the clamped trial count of the budget variant. -/
def bClampIters (iters : ℚ) : ℕ := (max 1 (min 50000 ⌊iters⌋)).toNat

/-- Modelled from the spec: the final counters of a budget-variant run. -/
noncomputable def bFinal (cfg : BConfig) : BCounters :=
  bRunSim (max 0 cfg.delaySlack) (max 0 cfg.budgetSlack) (bClampIters cfg.iterations)
    (cfg.risks.take 50) (seedState cfg.seed)

/-- Modelled from the spec: the SimulationResult of a budget-variant run. -/
noncomputable def bResults (cfg : BConfig) : BResults :=
  bBuildResults (bClampIters cfg.iterations) (bFinal cfg)

end BudgetEngine

lemma M32_pos : 0 < M32 := by norm_num [M32]

lemma M32_eq_pow : M32 = 2 ^ 32 := by norm_num [M32]

lemma m32out_lt (s : ℕ) : m32out s < M32 := by
  unfold m32out
  exact Nat.mod_lt _ M32_pos

lemma m32val_nonneg (s : ℕ) : 0 ≤ m32val s := by
  unfold m32val
  positivity

lemma m32val_lt_one (s : ℕ) : m32val s < 1 := by
  unfold m32val
  rw [div_lt_one (by norm_num [M32])]
  exact_mod_cast m32out_lt s

/-- The spec recurrence applied at a pre-advance state agrees with one
source `rng()` call from that state. -/
lemma specDraw_eq (s : ℕ) : specDraw s = m32val (m32next s) := by
  have hM : M32 = 2 ^ 32 := M32_eq_pow
  simp only [specDraw, m32val, m32out, m32next, hM, Nat.lor_comm 1, Nat.lor_comm 61]
  push_cast
  norm_num

lemma stateSeq_eq_iterate (seed : ℤ) (n : ℕ) :
    stateSeq seed n = (fun s => (s + 0x6D2B79F5) % 2 ^ 32)^[n] (seedState seed) := by
  induction n with
  | zero => rfl
  | succ n ih =>
      rw [Function.iterate_succ_apply', ← ih]
      simp only [stateSeq, m32next, M32_eq_pow]

/-- C2: the PRNG, seeded with a 32-bit integer, produces a reproducible
sequence of draws: the `n`-th draw equals the value of the spec recurrence
(`s = (s + 0x6D2B79F5) mod 2^32`; `t = (s XOR (s >> 15)) * (s OR 1) mod 2^32`;
`t = (t + ((t XOR (t >> 7)) * (t OR 61)) mod 2^32) XOR t mod 2^32`;
draw `= ((t XOR (t >> 14)) mod 2^32) / 2^32`) after `n` state advances, and
every draw lies in `[0,1)`.  The draw sequence is a pure function of the
seed alone, so two generators constructed with the same seed yield
identical sequences. -/
theorem prng_follows_spec_recurrence (seed : ℤ) (n : ℕ) :
    drawSeq seed n = specSeq seed n ∧ 0 ≤ drawSeq seed n ∧ drawSeq seed n < 1 := by
  refine ⟨?_, m32val_nonneg _, m32val_lt_one _⟩
  unfold drawSeq specSeq
  rw [specDraw_eq, ← stateSeq_eq_iterate]
  rfl

lemma sqrt_le_of_le_sq {x y : ℝ} (hy : 0 ≤ y) (h : x ≤ y ^ 2) : Real.sqrt x ≤ y :=
  (Real.sqrt_le_sqrt h).trans (le_of_eq (Real.sqrt_sq hy))

/-- C5 (amended): for `a ≤ m ≤ b`, `a < b` and a uniform draw
`u ∈ [0,1)`, the sampler's value lies in `[a,b]`, and it equals the spec's
inverse-CDF formula (threshold `k = (m−a)/(b−a)`) whenever
`b − a ≥ 1e-12` — the source divides by `max(1e-12, b−a)` rather than
`b − a`.  Whenever the precondition fails (including the degenerate case
`a = b`) the sampler returns `0`. -/
theorem sampleTriangular_valid (a m b u : ℚ) (hu0 : 0 ≤ u) (hu1 : u < 1) :
    (a ≤ m → m ≤ b → a < b →
      ((a : ℝ) ≤ sampleTriangular a m b u ∧ sampleTriangular a m b u ≤ (b : ℝ)) ∧
      ((1 : ℚ) / 10 ^ 12 ≤ b - a → sampleTriangular a m b u = triSpec a m b u)) ∧
    (¬(a < b ∧ a ≤ m ∧ m ≤ b) → sampleTriangular a m b u = 0) := by
  constructor
  · intro ham hmb hab
    have hguard : ¬(¬(a < b) ∨ ¬(a ≤ m ∧ m ≤ b)) := by push_neg; exact ⟨hab, ham, hmb⟩
    constructor
    · simp only [sampleTriangular, if_neg hguard]
      set M : ℚ := max (1 / 10 ^ 12) (b - a) with hMdef
      have hM : (0 : ℚ) < M := lt_max_of_lt_left (by norm_num)
      have hbaM : b - a ≤ M := le_max_right _ _
      by_cases hk : u ≤ (m - a) / M
      · rw [if_pos hk]
        have hqle : u * (b - a) * (m - a) ≤ (m - a) ^ 2 := by
          have h1 : u * (b - a) ≤ u * M :=
            mul_le_mul_of_nonneg_left hbaM hu0
          have h2 : u * M ≤ m - a := (le_div_iff₀ hM).mp hk
          have h3 : u * (b - a) ≤ m - a := h1.trans h2
          calc u * (b - a) * (m - a) ≤ (m - a) * (m - a) :=
                mul_le_mul_of_nonneg_right h3 (by linarith)
            _ = (m - a) ^ 2 := (sq (m - a)).symm
        have hrle : ((u : ℝ)) * ((b : ℝ) - a) * ((m : ℝ) - a) ≤ ((m : ℝ) - a) ^ 2 := by
          exact_mod_cast hqle
        have hsq : Real.sqrt ((u : ℝ) * ((b : ℝ) - a) * ((m : ℝ) - a)) ≤ (m : ℝ) - a :=
          sqrt_le_of_le_sq (by exact_mod_cast sub_nonneg.mpr ham) hrle
        have hmb' : (m : ℝ) ≤ b := by exact_mod_cast hmb
        constructor
        · have := Real.sqrt_nonneg ((u : ℝ) * ((b : ℝ) - a) * ((m : ℝ) - a))
          linarith
        · linarith
      · rw [if_neg hk]
        have hqle : (1 - u) * (b - a) * (b - m) ≤ (b - a) ^ 2 := by
          have h1u : 1 - u ≤ 1 := by linarith
          have hbm : b - m ≤ b - a := by linarith
          have hbm0 : (0 : ℚ) ≤ b - m := by linarith
          have hba : (0 : ℚ) < b - a := sub_pos.mpr hab
          calc (1 - u) * (b - a) * (b - m) ≤ 1 * (b - a) * (b - m) :=
                mul_le_mul_of_nonneg_right
                  (mul_le_mul_of_nonneg_right h1u hba.le) hbm0
            _ = (b - a) * (b - m) := by ring
            _ ≤ (b - a) * (b - a) := mul_le_mul_of_nonneg_left hbm hba.le
            _ = (b - a) ^ 2 := (sq (b - a)).symm
        have hrle : (1 - (u : ℝ)) * ((b : ℝ) - a) * ((b : ℝ) - m) ≤ ((b : ℝ) - a) ^ 2 := by
          exact_mod_cast hqle
        have hsq : Real.sqrt ((1 - (u : ℝ)) * ((b : ℝ) - a) * ((b : ℝ) - m)) ≤ (b : ℝ) - a :=
          sqrt_le_of_le_sq (by exact_mod_cast (sub_pos.mpr hab).le) hrle
        constructor
        · linarith
        · have := Real.sqrt_nonneg ((1 - (u : ℝ)) * ((b : ℝ) - a) * ((b : ℝ) - m))
          linarith
    · intro heps
      have hmax : max ((1 : ℚ) / 10 ^ 12) (b - a) = b - a := max_eq_right heps
      simp only [sampleTriangular, triSpec, if_neg hguard, hmax]
  · intro h
    have : ¬(a < b) ∨ ¬(a ≤ m ∧ m ≤ b) := by tauto
    simp only [sampleTriangular, if_pos this]

/-- C5 witness: the amended sampler theorem instantiated at
`a = 0, m = 1, b = 2, u = 1/2`. -/
theorem sampleTriangular_valid_witness :
    (0 : ℚ) ≤ 1 / 2 ∧ (1 / 2 : ℚ) < 1 ∧
    (((0 : ℚ) ≤ 1 → (1 : ℚ) ≤ 2 → (0 : ℚ) < 2 →
      (((0 : ℚ) : ℝ) ≤ sampleTriangular 0 1 2 (1 / 2) ∧
        sampleTriangular 0 1 2 (1 / 2) ≤ ((2 : ℚ) : ℝ)) ∧
      ((1 : ℚ) / 10 ^ 12 ≤ 2 - 0 →
        sampleTriangular 0 1 2 (1 / 2) = triSpec 0 1 2 (1 / 2))) ∧
    (¬((0 : ℚ) < 2 ∧ (0 : ℚ) ≤ 1 ∧ (1 : ℚ) ≤ 2) →
        sampleTriangular 0 1 2 (1 / 2) = 0)) :=
  ⟨by norm_num, by norm_num, sampleTriangular_valid 0 1 2 (1 / 2) (by norm_num) (by norm_num)⟩

/-- C5 counterexample: at `a = 0`, `m = b = 1e-13`, `u = 1/2` the source
sampler (denominator `max(1e-12, b−a)`) returns `b = 1e-13`, while the
claimed inverse-CDF formula with threshold `(m−a)/(b−a)` takes the first
branch and returns `sqrt(1/2)·1e-13 < 1e-13`. -/
theorem sampleTriangular_neq_spec :
    sampleTriangular 0 (1 / 10 ^ 13) (1 / 10 ^ 13) (1 / 2) ≠
      triSpec 0 (1 / 10 ^ 13) (1 / 10 ^ 13) (1 / 2) := by
  have hguard : ¬(¬((0 : ℚ) < 1 / 10 ^ 13) ∨
      ¬((0 : ℚ) ≤ 1 / 10 ^ 13 ∧ (1 / 10 ^ 13 : ℚ) ≤ 1 / 10 ^ 13)) := by
    push_neg
    norm_num
  have hsrc : sampleTriangular 0 (1 / 10 ^ 13) (1 / 10 ^ 13) (1 / 2) =
      ((1 / 10 ^ 13 : ℚ) : ℝ) := by
    simp only [sampleTriangular, if_neg hguard]
    rw [if_neg (by rw [max_eq_left (by norm_num)]; norm_num)]
    have hz : (1 - ((1 / 2 : ℚ) : ℝ)) * (((1 / 10 ^ 13 : ℚ) : ℝ) - ((0 : ℚ) : ℝ)) *
        (((1 / 10 ^ 13 : ℚ) : ℝ) - ((1 / 10 ^ 13 : ℚ) : ℝ)) = 0 := by ring
    rw [hz, Real.sqrt_zero, sub_zero]
  have hspec : triSpec 0 (1 / 10 ^ 13) (1 / 10 ^ 13) (1 / 2) =
      Real.sqrt (((1 / 2 : ℚ) : ℝ) * (((1 / 10 ^ 13 : ℚ) : ℝ) - ((0 : ℚ) : ℝ)) *
        (((1 / 10 ^ 13 : ℚ) : ℝ) - ((0 : ℚ) : ℝ))) := by
    simp only [triSpec, if_neg hguard]
    rw [if_pos (by norm_num), Rat.cast_zero, zero_add]
  have hlt : Real.sqrt (((1 / 2 : ℚ) : ℝ) * (((1 / 10 ^ 13 : ℚ) : ℝ) - ((0 : ℚ) : ℝ)) *
      (((1 / 10 ^ 13 : ℚ) : ℝ) - ((0 : ℚ) : ℝ))) < ((1 / 10 ^ 13 : ℚ) : ℝ) := by
    rw [Real.sqrt_lt' (by norm_num)]
    push_cast
    norm_num
  rw [hsrc, hspec]
  exact ne_of_gt hlt

lemma mergeSort_eq_insertionSort {α : Type} [LinearOrder α] (l : List α) :
    l.mergeSort (fun x y => decide (x ≤ y)) = l.insertionSort (· ≤ ·) := by
  refine List.eq_of_perm_of_sorted
    ((List.mergeSort_perm l _).trans (List.perm_insertionSort _ l).symm)
    ?_ (List.sorted_insertionSort _ l)
  have h := @List.sorted_mergeSort α (fun x y : α => decide (x ≤ y))
    (fun a b c h1 h2 => decide_eq_true (le_trans (of_decide_eq_true h1) (of_decide_eq_true h2)))
    (fun a b => by rcases le_total a b with h | h <;> simp [h]) l
  exact List.Pairwise.imp (fun h => of_decide_eq_true h) h

/-- C7: for every array and `p ∈ [0,1]`, the source percentile agrees with
the spec formulation (sort ascending, fractional index `idx = (n−1)·p`,
`arr[lo]` when `⌊idx⌋ = ⌈idx⌉`, else linear interpolation
`arr[lo]·(1−w) + arr[hi]·w` with `w = idx − lo`); in particular
`percentile([1,2,3,4], 0.5) = 2.5` and the percentile of an empty array is
`0` for every `p`. -/
theorem percentile_follows_spec {α : Type} [LinearOrderedField α] [FloorRing α]
    (arr : List α) (p : α) (hp0 : 0 ≤ p) (hp1 : p ≤ 1) :
    percentile arr p = percentileSpec arr p ∧
    percentile ([1, 2, 3, 4] : List ℚ) (1 / 2) = 5 / 2 ∧
    ∀ q : α, percentile ([] : List α) q = 0 := by
  refine ⟨?_, ?_, fun q => rfl⟩
  · unfold percentile percentileSpec
    rw [mergeSort_eq_insertionSort]
  · have hsorted : ([1, 2, 3, 4] : List ℚ).insertionSort (· ≤ ·) = [1, 2, 3, 4] :=
      List.Sorted.insertionSort_eq (by norm_num [List.sorted_cons])
    have hf : ⌊(3 / 2 : ℚ)⌋ = 1 := by rw [Int.floor_eq_iff]; norm_num
    have hc : ⌈(3 / 2 : ℚ)⌉ = 2 := by rw [Int.ceil_eq_iff]; norm_num
    norm_num [percentile, hsorted, hf, hc, show Int.toNat 2 = 2 from rfl,
      List.getElem_cons_succ, List.getElem_cons_zero]

/-- C7 witness: the percentile theorem instantiated at `[1,2,3,4]` and
`p = 1/2` over `ℚ`. -/
theorem percentile_follows_spec_witness :
    percentile ([1, 2, 3, 4] : List ℚ) (1 / 2) =
        percentileSpec ([1, 2, 3, 4] : List ℚ) (1 / 2) ∧
    percentile ([1, 2, 3, 4] : List ℚ) (1 / 2) = 5 / 2 ∧
    ∀ q : ℚ, percentile ([] : List ℚ) q = 0 :=
  percentile_follows_spec [1, 2, 3, 4] (1 / 2) (by norm_num) (by norm_num)

lemma riskStep_anyKill_mono (st : TrialState) (r : NRisk) (h : st.anyKill = true) :
    (riskStep st r).anyKill = true := by
  simp only [riskStep]
  split_ifs <;> simp [h]

lemma foldl_riskStep_anyKill_mono (R : List NRisk) :
    ∀ st : TrialState, st.anyKill = true → (R.foldl riskStep st).anyKill = true := by
  induction R with
  | nil => intro st h; simpa using h
  | cons r R ih =>
      intro st h
      exact ih _ (riskStep_anyKill_mono st r h)

lemma riskStep_anyKill_of_kill (st : TrialState) (r : NRisk)
    (hk : r.kill = true) (hp : 1 ≤ r.p) : (riskStep st r).anyKill = true := by
  have hu : (rngStep st.g).1 < r.p := lt_of_lt_of_le (m32val_lt_one _) hp
  simp only [riskStep, if_pos hu]
  split_ifs <;> simp [hk]

lemma runTrial_anyKill_of_mem {R : List NRisk} {r : NRisk}
    (hmem : r ∈ R) (hk : r.kill = true) (hp : 1 ≤ r.p) (g : ℕ) :
    (runTrial R g).anyKill = true := by
  obtain ⟨l1, l2, rfl⟩ := List.append_of_mem hmem
  unfold runTrial
  rw [List.foldl_append, List.foldl_cons]
  exact foldl_riskStep_anyKill_mono l2 _
    (riskStep_anyKill_of_kill _ r hk hp)

lemma runTrial_single_noTriple (r : NRisk)
    (hg : ¬(r.b > r.a ∧ r.m ≥ r.a ∧ r.m ≤ r.b)) (g : ℕ) :
    runTrial [r] g =
      { g := m32next g,
        anyKill := decide ((rngStep g).1 < r.p) && r.kill,
        totalDelay := 0 } := by
  unfold runTrial
  rw [List.foldl_cons, List.foldl_nil]
  unfold riskStep
  by_cases h : (rngStep g).1 < r.p
  · rw [if_pos h, if_neg hg]
    simp only [Bool.false_or, decide_eq_true h, Bool.true_and]
    rfl
  · rw [if_neg h]
    simp only [decide_eq_false h, Bool.false_and]
    rfl

lemma simStep_partition (slack : ℚ) (N : ℕ) (R : List NRisk) (st : SimState) (i : ℕ) :
    (simStep slack N R st i).killedCount + (simStep slack N R st i).notKilledCount
      = st.killedCount + st.notKilledCount + 1 ∧
    (simStep slack N R st i).successCount + (simStep slack N R st i).lateDelays.length
        + st.notKilledCount
      = st.successCount + st.lateDelays.length + (simStep slack N R st i).notKilledCount := by
  simp only [simStep]
  set t := runTrial R st.g with ht
  by_cases hk : t.anyKill
  · constructor <;> simp [hk] <;> omega
  · have hk' : t.anyKill = false := by simpa using hk
    by_cases hd : t.totalDelay ≤ (slack : ℝ)
    · have hnl : ¬(t.totalDelay > (slack : ℝ)) := not_lt.mpr hd
      constructor <;> simp [hk', hd, hnl] <;> omega
    · have hl : t.totalDelay > (slack : ℝ) := not_le.mp hd
      constructor <;> simp [hk', hd, hl] <;> omega

lemma foldl_simStep_partition (slack : ℚ) (N : ℕ) (R : List NRisk) :
    ∀ (l : List ℕ) (st : SimState),
      (l.foldl (simStep slack N R) st).killedCount
          + (l.foldl (simStep slack N R) st).notKilledCount
        = st.killedCount + st.notKilledCount + l.length ∧
      (l.foldl (simStep slack N R) st).successCount
          + (l.foldl (simStep slack N R) st).lateDelays.length + st.notKilledCount
        = st.successCount + st.lateDelays.length
          + (l.foldl (simStep slack N R) st).notKilledCount := by
  intro l
  induction l with
  | nil => intro st; simp
  | cons i l ih =>
      intro st
      have hs := simStep_partition slack N R st i
      have ihs := ih (simStep slack N R st i)
      simp only [List.foldl_cons, List.length_cons] at *
      omega

/-- C10: in every run the counters partition the trials —
`killedCount + notKilledCount = runs`, and every non-killed trial is
either a success (`totalDelay ≤ slack`) or contributes to the late-delay
array, so `successCount + lateCount = notKilledCount`. -/
theorem counters_partition_runs (cfg : Config) :
    (workerState cfg).killedCount + (simResults cfg).notKilledCount = (simResults cfg).runs ∧
    (workerState cfg).successCount + (simResults cfg).lateCount
      = (simResults cfg).notKilledCount := by
  have h := foldl_simStep_partition (max 0 cfg.slack) (clampIters cfg.iterations)
    (normRisks cfg.risks) (List.range (clampIters cfg.iterations))
    { g := seedState (resolveSeed cfg.seed cfg.clock), successCount := 0, killedCount := 0,
      notKilledCount := 0, sumDelayNotKilled := 0, lateDelays := [], msgs := [] }
  simp only [List.length_range, List.length_nil] at h
  constructor
  · have := h.1
    simp only [simResults, buildResults, workerState, runSim]
    omega
  · have := h.2
    simp only [simResults, buildResults, workerState, runSim]
    omega

lemma simStep_msgs (slack : ℚ) (N : ℕ) (R : List NRisk) (st : SimState) (i : ℕ) :
    (simStep slack N R st i).msgs
      = st.msgs ++ (if i % 1000 = 0 then [Msg.progress i N] else []) := by
  simp only [simStep]
  split_ifs <;> simp

lemma foldl_simStep_msgs (slack : ℚ) (N : ℕ) (R : List NRisk) :
    ∀ (l : List ℕ) (st : SimState),
      (l.foldl (simStep slack N R) st).msgs
        = st.msgs ++ (l.filter (fun i => i % 1000 == 0)).map (fun i => Msg.progress i N) := by
  intro l
  induction l with
  | nil => intro st; simp
  | cons i l ih =>
      intro st
      rw [List.foldl_cons, ih, simStep_msgs, List.filter_cons]
      by_cases h : i % 1000 = 0
      · simp [h]
      · simp [h]

/-- C9: a run of `N` trials posts a progress message `{done, total}`
exactly at the trial indices below `N` that are multiples of 1000
(`0, 1000, 2000, …`, hence in strictly increasing index order), followed
by exactly one result message carrying the `SimulationResult` as the last
message, with no other message types. -/
theorem messages_shape (cfg : Config) :
    simMessages cfg
      = ((List.range (clampIters cfg.iterations)).filter
            (fun i => i % 1000 == 0)).map
          (fun i => Msg.progress i (clampIters cfg.iterations))
        ++ [Msg.result (simResults cfg)] := by
  have h := foldl_simStep_msgs (max 0 cfg.slack) (clampIters cfg.iterations)
    (normRisks cfg.risks) (List.range (clampIters cfg.iterations))
    { g := seedState (resolveSeed cfg.seed cfg.clock), successCount := 0, killedCount := 0,
      notKilledCount := 0, sumDelayNotKilled := 0, lateDelays := [], msgs := [] }
  simp only [List.nil_append] at h
  simp only [simMessages, workerState, runSim]
  rw [h]

lemma foldl_simStep_allKill (slack : ℚ) (N : ℕ) (R : List NRisk)
    (hAll : ∀ g, (runTrial R g).anyKill = true) :
    ∀ (l : List ℕ) (st : SimState),
      (l.foldl (simStep slack N R) st).killedCount = st.killedCount + l.length ∧
      (l.foldl (simStep slack N R) st).successCount = st.successCount ∧
      (l.foldl (simStep slack N R) st).notKilledCount = st.notKilledCount := by
  intro l
  induction l with
  | nil => intro st; simp
  | cons i l ih =>
      intro st
      have hk := hAll st.g
      have hstep : (simStep slack N R st i).killedCount = st.killedCount + 1 ∧
          (simStep slack N R st i).successCount = st.successCount ∧
          (simStep slack N R st i).notKilledCount = st.notKilledCount := by
        have hns : ¬((runTrial R st.g).anyKill = false ∧
            (runTrial R st.g).totalDelay ≤ ((slack : ℚ) : ℝ)) := by simp [hk]
        simp [simStep, hk, hns]
      have ihs := ih (simStep slack N R st i)
      simp only [List.foldl_cons, List.length_cons] at *
      omega

lemma foldl_simStep_allSuccess (slack : ℚ) (N : ℕ) (R : List NRisk)
    (hAll : ∀ g, (runTrial R g).anyKill = false ∧
      (runTrial R g).totalDelay ≤ ((slack : ℚ) : ℝ)) :
    ∀ (l : List ℕ) (st : SimState),
      (l.foldl (simStep slack N R) st).successCount = st.successCount + l.length ∧
      (l.foldl (simStep slack N R) st).killedCount = st.killedCount ∧
      (l.foldl (simStep slack N R) st).notKilledCount = st.notKilledCount + l.length := by
  intro l
  induction l with
  | nil => intro st; simp
  | cons i l ih =>
      intro st
      obtain ⟨hk, hd⟩ := hAll st.g
      have hstep : (simStep slack N R st i).successCount = st.successCount + 1 ∧
          (simStep slack N R st i).killedCount = st.killedCount ∧
          (simStep slack N R st i).notKilledCount = st.notKilledCount + 1 := by
        simp [simStep, hk, hd]
      have ihs := ih (simStep slack N R st i)
      simp only [List.foldl_cons, List.length_cons] at *
      omega

lemma clampIters_100 : clampIters 100 = 100 := by
  have h : ⌊(100 : ℚ)⌋ = 100 := by rw [Int.floor_eq_iff] <;> norm_num
  norm_num [clampIters, h]
  rfl

lemma normRisk_scenarioA :
    normRisk ⟨100, 0, 0, 0, 1⟩ = some ⟨1, 0, 0, 0, true⟩ := by
  have hp : max (0 : ℚ) (min 1 (100 / 100)) = 1 := by norm_num
  simp only [normRisk, hp]
  norm_num

/-- C6: a kill risk marks the trial killed but does not stop processing —
the delay accumulation and rng stream of a trial are unchanged when all
kill flags are cleared (so later risks' sampled delays still accumulate
into the same trial), and with the single risk
`likelihood = 100, kill = true` and `iterations = 100` every trial is
killed: `killedCount = 100`, `successCount = 0`, `notKilledCount = 0`,
for every seed, clock and slack. -/
theorem kill_continues_processing (seedIn : Option ℤ) (clock : ℕ) (slack : ℚ) :
    (∀ (R : List NRisk) (st : TrialState),
      (runTrial (R.map stripKill) st.g).totalDelay = (runTrial R st.g).totalDelay ∧
      (runTrial (R.map stripKill) st.g).g = (runTrial R st.g).g) ∧
    (workerState ⟨seedIn, clock, [⟨100, 0, 0, 0, 1⟩], 100, slack⟩).killedCount = 100 ∧
    (workerState ⟨seedIn, clock, [⟨100, 0, 0, 0, 1⟩], 100, slack⟩).successCount = 0 ∧
    (workerState ⟨seedIn, clock, [⟨100, 0, 0, 0, 1⟩], 100, slack⟩).notKilledCount = 0 := by
  constructor
  · intro R st
    suffices h : ∀ (R : List NRisk) (s s' : TrialState), s.g = s'.g →
        s.totalDelay = s'.totalDelay →
        ((R.map stripKill).foldl riskStep s).totalDelay = (R.foldl riskStep s').totalDelay ∧
        ((R.map stripKill).foldl riskStep s).g = (R.foldl riskStep s').g by
      exact h R _ _ rfl rfl
    intro R
    induction R with
    | nil => intro s s' hg hd; simpa using ⟨hd, hg⟩
    | cons r R ih =>
        intro s s' hg hd
        simp only [List.map_cons, List.foldl_cons]
        apply ih
        · simp only [riskStep, stripKill, hg, hd]
          split_ifs <;> rfl
        · simp only [riskStep, stripKill, hg, hd]
          split_ifs <;> rfl
  · have hnorm : normRisks [⟨100, 0, 0, 0, 1⟩] = [⟨1, 0, 0, 0, true⟩] := by
      simp [normRisks, normRisk_scenarioA]
    have hAll : ∀ g, (runTrial [(⟨1, 0, 0, 0, true⟩ : NRisk)] g).anyKill = true :=
      fun g => runTrial_anyKill_of_mem (List.mem_singleton.mpr rfl) rfl le_rfl g
    have h := foldl_simStep_allKill (max 0 slack) (clampIters 100) [⟨1, 0, 0, 0, true⟩]
      hAll (List.range (clampIters 100))
      { g := seedState (resolveSeed seedIn clock), successCount := 0, killedCount := 0,
        notKilledCount := 0, sumDelayNotKilled := 0, lateDelays := [], msgs := [] }
    simp only [List.length_range, clampIters_100] at h
    simp only [workerState, runSim, hnorm, clampIters_100]
    omega

lemma normRisk_scenarioB :
    normRisk ⟨100, 5, 5, 5, 0⟩ = some ⟨1, 5, 5, 5, false⟩ := by
  have hp : max (0 : ℚ) (min 1 (100 / 100)) = 1 := by norm_num
  simp only [normRisk, hp]
  norm_num

/-- C8: with the single risk `likelihood = 100`, degenerate delay triple
`(5,5,5)` (`a = b`), `kill = false` and `delaySlack = 0`, every trial's
`totalDelay` is `0` (the degenerate triple is guarded out and contributes
nothing), so `successCount` equals the executed number of iterations
(`runs`) — all trials succeed despite the nonzero mode — for every seed,
clock and requested iteration count. -/
theorem degenerate_delay_all_success (seedIn : Option ℤ) (clock : ℕ) (iters : ℚ) :
    (∀ g : ℕ, (runTrial (normRisks [⟨100, 5, 5, 5, 0⟩]) g).totalDelay = 0) ∧
    (workerState ⟨seedIn, clock, [⟨100, 5, 5, 5, 0⟩], iters, 0⟩).successCount
      = (simResults ⟨seedIn, clock, [⟨100, 5, 5, 5, 0⟩], iters, 0⟩).runs := by
  have hnorm : normRisks [⟨100, 5, 5, 5, 0⟩] = [⟨1, 5, 5, 5, false⟩] := by
    simp [normRisks, normRisk_scenarioB]
  have htrial : ∀ g : ℕ, runTrial [(⟨1, 5, 5, 5, false⟩ : NRisk)] g =
      { g := m32next g, anyKill := false, totalDelay := 0 } := by
    intro g
    rw [runTrial_single_noTriple ⟨1, 5, 5, 5, false⟩ (by norm_num) g]
    simp
  constructor
  · intro g
    rw [hnorm, htrial g]
  · have hAll : ∀ g, (runTrial [(⟨1, 5, 5, 5, false⟩ : NRisk)] g).anyKill = false ∧
        (runTrial [(⟨1, 5, 5, 5, false⟩ : NRisk)] g).totalDelay ≤ ((max 0 0 : ℚ) : ℝ) := by
      intro g
      rw [htrial g]
      norm_num
    have h := foldl_simStep_allSuccess (max 0 0) (clampIters iters) [⟨1, 5, 5, 5, false⟩]
      hAll (List.range (clampIters iters))
      { g := seedState (resolveSeed seedIn clock), successCount := 0, killedCount := 0,
        notKilledCount := 0, sumDelayNotKilled := 0, lateDelays := [], msgs := [] }
    simp only [List.length_range] at h
    simp only [workerState, runSim, hnorm, simResults, buildResults]
    omega

lemma clampIters_50000 : clampIters 50000 = 20000 := by
  have h : ⌊(50000 : ℚ)⌋ = 50000 := by rw [Int.floor_eq_iff] <;> norm_num
  norm_num [clampIters, h]
  rfl

/-- C3 (amended): the engine clamps the requested iteration count to
`[1, 20000]` (not `[1, 50000]`) and does not truncate the risk list — a
qualifying risk is kept by normalization wherever it appears, with no
50-entry cutoff — and `result.runs` equals
`clamp(floor(iterations), 1, 20000)`. -/
theorem iterations_clamped_20000 (cfg : Config) (r : RiskIn) (nr : NRisk)
    (hmem : r ∈ cfg.risks) (hnr : normRisk r = some nr) :
    (simResults cfg).runs = (max 1 (min 20000 ⌊cfg.iterations⌋)).toNat ∧
    nr ∈ normRisks cfg.risks :=
  ⟨rfl, List.mem_filterMap.mpr ⟨r, hmem, hnr⟩⟩

/-- C3 witness: the amended clamp theorem instantiated at a request with
`iterations = 50000` and one kill risk. -/
theorem iterations_clamped_20000_witness :
    (simResults ⟨some 1, 0, [⟨100, 0, 0, 0, 1⟩], 50000, 0⟩).runs
      = (max 1 (min 20000 ⌊(50000 : ℚ)⌋)).toNat ∧
    (⟨1, 0, 0, 0, true⟩ : NRisk) ∈ normRisks [⟨100, 0, 0, 0, 1⟩] :=
  iterations_clamped_20000 ⟨some 1, 0, [⟨100, 0, 0, 0, 1⟩], 50000, 0⟩
    ⟨100, 0, 0, 0, 1⟩ ⟨1, 0, 0, 0, true⟩ (List.mem_singleton.mpr rfl) normRisk_scenarioA

set_option maxRecDepth 100000 in
/-- C3 counterexample: requesting `iterations = 50000` yields
`runs = 20000`, not `clamp(floor(50000), 1, 50000) = 50000`; and with 50
benign risks followed by a 51st always-occurring kill risk, the 51st risk
is still normalized into the active list and kills every trial
(`killedPct = 1`), so the engine does not truncate the risk list to 50
entries. -/
theorem iterations_clamp_counterexample :
    (simResults ⟨some 1, 0,
        List.replicate 50 ⟨100, 0, 5, 0, 0⟩ ++ [⟨100, 0, 0, 0, 1⟩], 50000, 0⟩).runs
      = 20000 ∧
    (max 1 (min 50000 ⌊(50000 : ℚ)⌋)).toNat = 50000 ∧
    (⟨1, 0, 0, 0, true⟩ : NRisk) ∈
      normRisks (List.replicate 50 ⟨100, 0, 5, 0, 0⟩ ++ [⟨100, 0, 0, 0, 1⟩]) ∧
    (simResults ⟨some 1, 0,
        List.replicate 50 ⟨100, 0, 5, 0, 0⟩ ++ [⟨100, 0, 0, 0, 1⟩], 50000, 0⟩).killedPct
      = 1 := by
  have hfloor : ⌊(50000 : ℚ)⌋ = 50000 := by rw [Int.floor_eq_iff] <;> norm_num
  have hmem : (⟨1, 0, 0, 0, true⟩ : NRisk) ∈
      normRisks (List.replicate 50 ⟨100, 0, 5, 0, 0⟩ ++ [⟨100, 0, 0, 0, 1⟩]) :=
    List.mem_filterMap.mpr ⟨⟨100, 0, 0, 0, 1⟩, by simp, normRisk_scenarioA⟩
  refine ⟨?_, by rw [hfloor]; norm_num; rfl, hmem, ?_⟩
  · show clampIters 50000 = 20000
    exact clampIters_50000
  · have hAll : ∀ g,
        (runTrial (normRisks (List.replicate 50 ⟨100, 0, 5, 0, 0⟩ ++ [⟨100, 0, 0, 0, 1⟩]))
          g).anyKill = true :=
      fun g => runTrial_anyKill_of_mem hmem rfl le_rfl g
    have h := foldl_simStep_allKill (max 0 0) (clampIters 50000)
      (normRisks (List.replicate 50 ⟨100, 0, 5, 0, 0⟩ ++ [⟨100, 0, 0, 0, 1⟩])) hAll
      (List.range (clampIters 50000))
      { g := seedState (resolveSeed (some 1) 0), successCount := 0, killedCount := 0,
        notKilledCount := 0, sumDelayNotKilled := 0, lateDelays := [], msgs := [] }
    rw [List.length_range] at h
    simp only [simResults, buildResults, workerState, runSim]
    rw [h.1, clampIters_50000]
    norm_num

/-- C1 (amended): for every explicitly supplied nonzero 32-bit seed and
fixed risk list, iterations and slack, two runs are identical
field-for-field (results and messages), whatever the wall clock reads —
the wall-clock fallback is used only when the seed is omitted or `0`,
because `Number(data.seed) || …` treats the explicit seed `0` as absent. -/
theorem nonzero_seed_determines (s : ℤ) (hs : s ≠ 0) (c1 c2 : ℕ)
    (risks : List RiskIn) (iters slack : ℚ) :
    simResults ⟨some s, c1, risks, iters, slack⟩
      = simResults ⟨some s, c2, risks, iters, slack⟩ ∧
    simMessages ⟨some s, c1, risks, iters, slack⟩
      = simMessages ⟨some s, c2, risks, iters, slack⟩ := by
  have h : ∀ c : ℕ, resolveSeed (some s) c = s := fun c => if_neg hs
  constructor
  · simp only [simResults, workerState, h]
  · simp only [simMessages, simResults, workerState, h]

/-- C1 witness: the determinism theorem instantiated at seed `5`, clocks
`0` and `1`, an empty risk list, one iteration and zero slack. -/
theorem nonzero_seed_determines_witness :
    (5 : ℤ) ≠ 0 ∧
    (simResults ⟨some 5, 0, [], 1, 0⟩ = simResults ⟨some 5, 1, [], 1, 0⟩ ∧
     simMessages ⟨some 5, 0, [], 1, 0⟩ = simMessages ⟨some 5, 1, [], 1, 0⟩) :=
  ⟨by norm_num, nonzero_seed_determines 5 (by norm_num) 0 1 [] 1 0⟩

lemma normRisk_halfKill :
    normRisk ⟨50, 0, 0, 0, 1⟩ = some ⟨1 / 2, 0, 0, 0, true⟩ := by
  have hp : max (0 : ℚ) (min 1 (50 / 100)) = 1 / 2 := by norm_num
  simp only [normRisk, hp]
  norm_num

lemma clampIters_one : clampIters 1 = 1 := by
  have h : ⌊(1 : ℚ)⌋ = 1 := by rw [Int.floor_eq_iff] <;> norm_num
  norm_num [clampIters, h]

lemma killedPct_half_kill (seedIn : Option ℤ) (clock : ℕ) :
    (simResults ⟨seedIn, clock, [⟨50, 0, 0, 0, 1⟩], 1, 0⟩).killedPct
      = if (rngStep (seedState (resolveSeed seedIn clock))).1 < (1 / 2 : ℚ)
        then 1 else 0 := by
  have hnorm : normRisks [⟨50, 0, 0, 0, 1⟩] = [⟨1 / 2, 0, 0, 0, true⟩] := by
    simp [normRisks, normRisk_halfKill]
  have hr1 : List.range 1 = [0] := by
    rw [List.range_succ, List.range_zero, List.nil_append]
  simp only [simResults, buildResults, workerState, hnorm, clampIters_one, runSim,
    hr1, List.foldl_cons, List.foldl_nil, simStep]
  rw [runTrial_single_noTriple ⟨1 / 2, 0, 0, 0, true⟩ (by norm_num)]
  by_cases h : (rngStep (seedState (resolveSeed seedIn clock))).1 < (1 / 2 : ℚ)
  · simp [h]
  · simp [h]

/-- C1 counterexample: with the explicit seed `0`, one 50%-likelihood kill
risk and a single iteration, the wall clock changes the posted result —
at clock `0` the first draw is below `1/2` and the trial is killed
(`killedPct = 1`), at clock `1` it is not (`killedPct = 0`) — so an
explicit seed of `0` does not determine the result. -/
theorem seed_zero_not_deterministic :
    simResults ⟨some 0, 0, [⟨50, 0, 0, 0, 1⟩], 1, 0⟩ ≠
      simResults ⟨some 0, 1, [⟨50, 0, 0, 0, 1⟩], 1, 0⟩ := by
  have hseed : ∀ c : ℕ, c < 2147483647 →
      seedState (resolveSeed (some 0) c) = c := by
    intro c hc
    have h1 : resolveSeed (some 0) c = ((c % 2147483647 : ℕ) : ℤ) := by
      simp [resolveSeed]
    rw [h1, Nat.mod_eq_of_lt hc]
    simp only [seedState, M32]
    omega
  have hc0 : (rngStep (seedState (resolveSeed (some 0) 0))).1 < (1 / 2 : ℚ) := by
    rw [hseed 0 (by norm_num)]
    show (m32out (m32next 0) : ℚ) / (M32 : ℚ) < 1 / 2
    rw [show m32out (m32next 0) = 1144304738 from by decide]
    norm_num [M32]
  have hc1 : ¬((rngStep (seedState (resolveSeed (some 0) 1))).1 < (1 / 2 : ℚ)) := by
    rw [hseed 1 (by norm_num)]
    show ¬((m32out (m32next 1) : ℚ) / (M32 : ℚ) < 1 / 2)
    rw [show m32out (m32next 1) = 2693262067 from by decide]
    norm_num [M32]
  have h0 : (simResults ⟨some 0, 0, [⟨50, 0, 0, 0, 1⟩], 1, 0⟩).killedPct = 1 := by
    rw [killedPct_half_kill, if_pos hc0]
  have h1 : (simResults ⟨some 0, 1, [⟨50, 0, 0, 0, 1⟩], 1, 0⟩).killedPct = 0 := by
    rw [killedPct_half_kill, if_neg hc1]
  intro heq
  rw [congrArg Results.killedPct heq, h1] at h0
  exact absurd h0 (by norm_num)

/-- C4 (spec-modelled, the budget-tracking engine variant is not under
`src/`): in every trial, `budgetExceededCount` is incremented whenever
`totalCost` exceeds `budgetSlack`, regardless of whether the trial is
killed — so a trial in which both a kill risk and a cost-overrun risk
occur is counted in both `killedCount` and `budgetExceededCount` (as in
the concrete two-risk trial below, which is killed and has
`totalCost = 10`) — and the SimulationResult carries the budget fields:
`budgetExceededCount`, `budgetExceededPct` and the cost percentiles. -/
theorem budget_counted_regardless_of_kill (ds bs : ℚ)
    (st : BudgetEngine.BCounters) (t : BudgetEngine.BTrial)
    (hover : (bs : ℝ) < t.totalCost) :
    (BudgetEngine.bUpdate ds bs st t).budgetExceededCount = st.budgetExceededCount + 1 ∧
    (t.killed = true →
      (BudgetEngine.bUpdate ds bs st t).killedCount = st.killedCount + 1 ∧
      (BudgetEngine.bUpdate ds bs st t).budgetExceededCount = st.budgetExceededCount + 1) ∧
    (∀ g : ℕ,
      (BudgetEngine.bRunTrial
        [⟨1, none, none, true⟩, ⟨1, none, some (10, 10, 10), false⟩] g).killed = true ∧
      (BudgetEngine.bRunTrial
        [⟨1, none, none, true⟩, ⟨1, none, some (10, 10, 10), false⟩] g).totalCost = 10) ∧
    (∀ cfg : BudgetEngine.BConfig,
      (BudgetEngine.bResults cfg).budgetExceededCount
        = (BudgetEngine.bFinal cfg).budgetExceededCount ∧
      (BudgetEngine.bResults cfg).budgetExceededPct
        = ((BudgetEngine.bFinal cfg).budgetExceededCount : ℚ)
            / (BudgetEngine.bClampIters cfg.iterations) ∧
      (BudgetEngine.bResults cfg).p50Cost
        = percentileSpec (BudgetEngine.bFinal cfg).overruns (1 / 2) ∧
      (BudgetEngine.bResults cfg).p85Cost
        = percentileSpec (BudgetEngine.bFinal cfg).overruns (85 / 100) ∧
      (BudgetEngine.bResults cfg).p90Cost
        = percentileSpec (BudgetEngine.bFinal cfg).overruns (9 / 10)) := by
  refine ⟨?_, fun hkill => ⟨?_, ?_⟩, ?_, fun cfg => ⟨rfl, rfl, rfl, rfl, rfl⟩⟩
  · simp only [BudgetEngine.bUpdate, if_pos hover]
  · simp only [BudgetEngine.bUpdate, if_pos hkill]
  · simp only [BudgetEngine.bUpdate, if_pos hover]
  · intro g
    have hu : ∀ g' : ℕ, (rngStep g').1 < (1 : ℚ) := fun g' => m32val_lt_one _
    have hnv : ¬BudgetEngine.validTriple ((10 : ℚ), (10 : ℚ), (10 : ℚ)) := by
      norm_num [BudgetEngine.validTriple]
    simp only [BudgetEngine.bRunTrial, List.foldl_cons, List.foldl_nil,
      BudgetEngine.bRiskStep, if_pos (hu _), if_neg hnv]
    norm_num

/-- C4 witness: the budget-asymmetry theorem instantiated at
`delaySlack = 0`, `budgetSlack = 5`, zeroed counters, and a killed trial
with `totalCost = 10`. -/
theorem budget_counted_regardless_of_kill_witness :
    (BudgetEngine.bUpdate 0 5 ⟨0, 0, 0, 0, 0, 0, 0, [], []⟩
        ⟨true, 0, 10, 0⟩).budgetExceededCount = 0 + 1 ∧
    (BudgetEngine.bUpdate 0 5 ⟨0, 0, 0, 0, 0, 0, 0, [], []⟩
        ⟨true, 0, 10, 0⟩).killedCount = 0 + 1 ∧
    (BudgetEngine.bRunTrial
        [⟨1, none, none, true⟩, ⟨1, none, some (10, 10, 10), false⟩] 0).killed = true ∧
    (BudgetEngine.bRunTrial
        [⟨1, none, none, true⟩, ⟨1, none, some (10, 10, 10), false⟩] 0).totalCost = 10 ∧
    (BudgetEngine.bResults ⟨[], 1, 0, 0, 1⟩).budgetExceededCount
      = (BudgetEngine.bFinal ⟨[], 1, 0, 0, 1⟩).budgetExceededCount := by
  have h := budget_counted_regardless_of_kill 0 5 ⟨0, 0, 0, 0, 0, 0, 0, [], []⟩
    ⟨true, 0, 10, 0⟩ (by norm_num)
  exact ⟨h.1, (h.2.1 rfl).1, (h.2.2.1 0).1, (h.2.2.1 0).2, (h.2.2.2 ⟨[], 1, 0, 0, 1⟩).1⟩

end RiskSim
